import Mathlib

/-!
Verification of the Replace-By-Fee (RBF) fee-bumping engine specified for
the wallet, against the behaviour exercised by qa/rpc-tests/bumpfee.py.
The engine itself (Fee-Bump Planner, Pending-Transaction Pool, Coin Ledger,
Conflict Tracker) ships outside this tree, so the definitions below are a
shallow embedding modelled from the specification; the test scenarios fix
the concrete behaviour at the boundary.
-/

namespace RBF

/-- Modelled from the spec (§3 Data Model): a transaction input references a
prior output by identifier and index and carries a sequence number; wallet
ownership of the input's previous output is tracked per input (needed for the
ForeignInput check, §4.3 precondition 2). -/
structure TxIn where
  prevTx : Nat
  prevVout : Nat
  sequence : Nat
  ownedByWallet : Bool
  deriving DecidableEq, Repr

/-- Modelled from the spec (§3): an output is an amount and a destination
script; `toWallet` records whether the destination is the wallet's own
address (used both for change identification and for coin ownership). -/
structure TxOut where
  amount : Nat
  toWallet : Bool
  deriving DecidableEq, Repr

/-- Modelled from the spec (§3): a transaction is an ordered sequence of
inputs and outputs; `inputValue` is the total value consumed by its inputs
(so fee = inputValue - sum of outputs); `size` is the serialized size used
by the fee-rate policy. Identity is the `txid`. -/
structure Tx where
  txid : Nat
  inputs : List TxIn
  outputs : List TxOut
  inputValue : Nat
  size : Nat
  deriving DecidableEq, Repr

def outputTotal (t : Tx) : Nat :=
  (t.outputs.map (fun o => o.amount)).sum

/-- Fee of a transaction: input value minus output value (§3 invariant). -/
def txFee (t : Tx) : Nat :=
  t.inputValue - outputTotal t

/-- Modelled from the spec (§3): a transaction is opt-in replaceable iff at
least one input carries a sequence number below the chain's finality
threshold (BIP125-style marker). -/
def isReplaceable (finalityThreshold : Nat) (t : Tx) : Bool :=
  t.inputs.any (fun i => i.sequence < finalityThreshold)

/-- Modelled from the spec (§4.3, §6): policy parameters — the finality
threshold for the BIP125 marker, the relay fee increment floor, the network
dust threshold, the wallet's minimum acceptable non-dust change size (the
band just above dust, §4.3), and the dynamic fee-rate estimate used when no
override is set. -/
structure Params where
  finalityThreshold : Nat
  relayIncrementFloor : Nat
  dustThreshold : Nat
  minNonDustChange : Nat
  dynamicRate : Nat
  deriving DecidableEq, Repr

/-- Modelled from the spec (§2, §3): the engine state — the set of
wallet-known transactions, the pending-transaction pool (by id), the
confirmed ledger (by id), the Conflict Tracker's Replacement Links
(original, replacement), and the wallet's settable fee-rate override
(`paytxfee`, zero meaning unset, §6). -/
structure WalletState where
  txs : List Tx
  pool : List Nat
  confirmedTxs : List Nat
  links : List (Nat × Nat)
  paytxfee : Nat
  deriving DecidableEq, Repr

def findTx (st : WalletState) (id : Nat) : Option Tx :=
  st.txs.find? (fun t => t.txid == id)

/-- True when the pool transaction `childId` spends an output of `parentId`
(is an in-wallet descendant, §3 Pool Entry). -/
def spendsFrom (st : WalletState) (childId parentId : Nat) : Bool :=
  match findTx st childId with
  | some c => c.inputs.any (fun i => i.prevTx == parentId)
  | none => false

/-- Modelled from the spec (§4.2): the number of pool entries whose inputs
reference `id`'s outputs. -/
def descendantCount (st : WalletState) (id : Nat) : Nat :=
  (st.pool.filter (fun cid => spendsFrom st cid id)).length

/-- True when `id` has an outgoing Replacement Link (it has been bumped). -/
def hasOutgoingLink (st : WalletState) (id : Nat) : Bool :=
  st.links.any (fun l => l.1 == id)

/-- True when `id` has an incoming Replacement Link (it is a replacement). -/
def isReplacementTx (st : WalletState) (id : Nat) : Bool :=
  st.links.any (fun l => l.2 == id)

/-- A coin: a (transaction identifier, output index) pair owned by the
wallet, carrying its amount (§3). -/
structure Coin where
  txid : Nat
  vout : Nat
  amount : Nat
  deriving DecidableEq, Repr

/-- A coin is spent when some accepted transaction consumes it as input. -/
def isSpent (st : WalletState) (c : Coin) : Bool :=
  st.txs.any (fun t => t.inputs.any (fun i => i.prevTx == c.txid && i.prevVout == c.vout))

def coinsOfAux (id : Nat) : Nat → List TxOut → List Coin
  | _, [] => []
  | i, o :: rest =>
      (if o.toWallet then [⟨id, i, o.amount⟩] else []) ++ coinsOfAux id (i + 1) rest

/-- The wallet-addressed coins created by a transaction's outputs. -/
def coinsOf (t : Tx) : List Coin :=
  coinsOfAux t.txid 0 t.outputs

/-- Modelled from the spec (§4.1): a coin is excluded from spendability when
its transaction has an outgoing Replacement Link with no terminal state
(superseded, not yet (re-)confirmed), or is itself a replacement that is
still unconfirmed. -/
def excludedFromSpendable (st : WalletState) (id : Nat) : Bool :=
  (hasOutgoingLink st id || isReplacementTx st id) && !(st.confirmedTxs.contains id)

def spendableFrom (st : WalletState) (minConf : Nat) : List Tx → List Coin
  | [] => []
  | t :: rest =>
      (if (st.confirmedTxs.contains t.txid || (minConf == 0 && st.pool.contains t.txid))
          && !(excludedFromSpendable st t.txid)
       then (coinsOf t).filter (fun c => !(isSpent st c)) else [])
      ++ spendableFrom st minConf rest

/-- Modelled from the spec (§4.1): `listSpendable minConf` returns unspent
wallet coins whose transaction is confirmed, or unconfirmed-pending when
`minConf = 0`, excluding superseded originals and unconfirmed replacements
(`excludedFromSpendable`). -/
def listSpendable (minConf : Nat) (st : WalletState) : List Coin :=
  spendableFrom st minConf st.txs

/-- Modelled from the spec (§6): the current fee rate honors the settable
override exactly, a zero value meaning the override is unset and the
dynamic estimate applies. -/
def currentRate (p : Params) (st : WalletState) : Nat :=
  if st.paytxfee == 0 then p.dynamicRate else st.paytxfee

/-- Modelled from the spec (§7): the error kinds of the engine. -/
inductive BumpError where
  | NotReplaceable
  | ForeignInput
  | HasDescendants
  | AlreadyBumped
  | ChangeTooSmall
  | SigningFailed
  | BroadcastRejected
  deriving DecidableEq, Repr

instance {α β : Type} [DecidableEq α] [DecidableEq β] : DecidableEq (Except α β) := fun x y =>
  match x, y with
  | .ok a, .ok b =>
      if h : a = b then isTrue (by rw [h]) else isFalse (fun hc => by cases hc; exact h rfl)
  | .error a, .error b =>
      if h : a = b then isTrue (by rw [h]) else isFalse (fun hc => by cases hc; exact h rfl)
  | .ok _, .error _ => isFalse (fun hc => by cases hc)
  | .error _, .ok _ => isFalse (fun hc => by cases hc)

/-- Two transactions conflict when they consume a common input (double
spend); used by block connection to clear superseded pool entries. -/
def conflictsWith (st : WalletState) (a b : Nat) : Bool :=
  match findTx st a, findTx st b with
  | some ta, some tb =>
      ta.inputs.any (fun i => tb.inputs.any
        (fun j => i.prevTx == j.prevTx && i.prevVout == j.prevVout))
  | _, _ => false

/-- Modelled from the spec (§4.2, §2): atomically removes the original and
its in-wallet dependents from the pool, inserts the replacement, and
registers the Replacement Link in the Conflict Tracker, as one transition. -/
def evictAndReplace (st : WalletState) (origId : Nat) (r : Tx) : WalletState :=
  { st with
    txs := st.txs ++ [r]
    pool := st.pool.filter (fun i => !(i == origId) && !(spendsFrom st i origId)) ++ [r.txid]
    links := st.links ++ [(origId, r.txid)] }

/-- The index of the change output: the first output returning value to the
wallet's own address (§4.3). -/
def findChangeIdx : List TxOut → Option Nat
  | [] => none
  | o :: rest => if o.toWallet then some 0 else (findChangeIdx rest).map (fun i => i + 1)

/-- Modelled from the spec (§4.3): the change-rewriting step of the
Fee-Bump Planner, applied to the original transaction `t` with the resolved
requested fee. The new fee is `max requested (oldFee + relayIncrementFloor)`;
the change output is reduced by the fee delta; change that cannot fund the
delta is rejected with ChangeTooSmall (the spec names no separate error for
an unfundable delta, and the scenario at total fee 10001 shows it surfacing
as ChangeTooSmall); change that would fall below the dust threshold is
dropped and its value converted to fee; change that is above dust but below
the minimum non-dust size is rejected with ChangeTooSmall. Returns the
replacement transaction and its realized fee. -/
def planBumpChange (p : Params) (newId : Nat) (t : Tx) (requested : Nat) :
    Except BumpError (Tx × Nat) :=
  match findChangeIdx t.outputs with
  | none => .error .ChangeTooSmall
  | some ci =>
    if (t.outputs.getD ci ⟨0, false⟩).amount
        < max requested (txFee t + p.relayIncrementFloor) - txFee t then
      .error .ChangeTooSmall
    else if (t.outputs.getD ci ⟨0, false⟩).amount
        - (max requested (txFee t + p.relayIncrementFloor) - txFee t) < p.dustThreshold then
      .ok ({ txid := newId, inputs := t.inputs, outputs := t.outputs.eraseIdx ci,
             inputValue := t.inputValue, size := t.size },
           txFee t + (t.outputs.getD ci ⟨0, false⟩).amount)
    else if (t.outputs.getD ci ⟨0, false⟩).amount
        - (max requested (txFee t + p.relayIncrementFloor) - txFee t) < p.minNonDustChange then
      .error .ChangeTooSmall
    else
      .ok ({ txid := newId, inputs := t.inputs,
             outputs := t.outputs.set ci
               ⟨(t.outputs.getD ci ⟨0, false⟩).amount
                 - (max requested (txFee t + p.relayIncrementFloor) - txFee t), true⟩,
             inputValue := t.inputValue, size := t.size },
           max requested (txFee t + p.relayIncrementFloor))

/-- Modelled from the spec (§4.3): the Fee-Bump Planner. Preconditions are
checked in order (NotReplaceable, ForeignInput, HasDescendants,
AlreadyBumped); then the change is rewritten by `planBumpChange`, with the
requested fee defaulting to the current fee rate times the transaction
size. -/
def planBump (p : Params) (newId : Nat) (st : WalletState) (id : Nat)
    (req : Option Nat) : Except BumpError (Tx × Nat) :=
  match findTx st id with
  | none => .error .NotReplaceable
  | some t =>
    if isReplaceable p.finalityThreshold t = false then .error .NotReplaceable
    else if t.inputs.all (fun i => i.ownedByWallet) = false then .error .ForeignInput
    else if descendantCount st id ≠ 0 then .error .HasDescendants
    else if hasOutgoingLink st id = true then .error .AlreadyBumped
    else planBumpChange p newId t (req.getD (currentRate p st * t.size))

/-- Modelled from the spec (§4.3): a successful bump submits the replacement
via `evictAndReplace` (which also creates the Replacement Link); on failure
no mutation occurs. Returns the new state, the replacement transaction and
the realized fee. -/
def bumpfee (p : Params) (newId : Nat) (st : WalletState) (id : Nat)
    (req : Option Nat) : Except BumpError (WalletState × Tx × Nat) :=
  match planBump p newId st id req with
  | .error e => .error e
  | .ok (r, fee) => .ok (evictAndReplace st id r, r, fee)

/-- Modelled from the spec (§3 Lifecycle, §6 Block source): block
confirmation moves a transaction out of the pool into the confirmed ledger
and clears conflicting pool entries (they were double-spent by the confirmed
transaction). -/
def confirmTx (st : WalletState) (id : Nat) : WalletState :=
  { st with
    pool := st.pool.filter (fun i => !(i == id) && !(conflictsWith st i id))
    confirmedTxs := if st.confirmedTxs.contains id then st.confirmedTxs
                    else st.confirmedTxs ++ [id] }

/-- Modelled from the spec (§3 Lifecycle): block invalidation (reorg) moves
a confirmed transaction back into the pool; transactions that were evicted
from the pool as conflicts are not resurrected. -/
def invalidateTx (st : WalletState) (id : Nat) : WalletState :=
  if st.confirmedTxs.contains id then
    { st with
      confirmedTxs := st.confirmedTxs.filter (fun i => !(i == id))
      pool := if st.pool.contains id then st.pool else st.pool ++ [id] }
  else st

/-- The engine's operations, as a step alphabet over `WalletState`. -/
inductive Op where
  | bump (p : Params) (newId : Nat) (id : Nat) (req : Option Nat)
  | confirm (id : Nat)
  | invalidate (id : Nat)
  deriving DecidableEq, Repr

/-- One step of the engine; a failed bump leaves the state unchanged (§7:
no partial mutation is visible on failure). -/
def applyOp (st : WalletState) : Op → WalletState
  | .bump p newId id req =>
      match bumpfee p newId st id req with
      | .ok (st', _, _) => st'
      | .error _ => st
  | .confirm id => confirmTx st id
  | .invalidate id => invalidateTx st id

/-- True when a bump call returned a replacement (did not fail). -/
def bumpSucceeded : Except BumpError (WalletState × Tx × Nat) → Bool
  | .ok _ => true
  | .error _ => false

/-! Concrete scenario data, mirroring the bumpfee.py test fixtures: a
confirmed funding coin of 100000 units and an opt-in-replaceable spend of
90000 to a foreign destination with 9000 change (original fee 1000). The
BIP125 finality threshold is 0xfffffffe and the opt-in sequence is
0xfffffffd, as in the test; dust threshold 546 with the minimum non-dust
band ending at 1092; relay increment floor 1000. -/

def p0 : Params :=
  { finalityThreshold := 0xfffffffe, relayIncrementFloor := 1000,
    dustThreshold := 546, minNonDustChange := 1092, dynamicRate := 2 }

def fundingTx : Tx :=
  { txid := 100, inputs := [], outputs := [⟨100000, true⟩], inputValue := 100000, size := 1 }

def origTx : Tx :=
  { txid := 1, inputs := [⟨100, 0, 0xfffffffd, true⟩],
    outputs := [⟨90000, false⟩, ⟨9000, true⟩], inputValue := 100000, size := 10 }

def st0 : WalletState :=
  { txs := [fundingTx, origTx], pool := [1], confirmedTxs := [100], links := [], paytxfee := 0 }

/-- The replacement produced by bumping `origTx` to a total fee of 2000. -/
def bumpTx1 : Tx :=
  { txid := 2, inputs := [⟨100, 0, 0xfffffffd, true⟩],
    outputs := [⟨90000, false⟩, ⟨8000, true⟩], inputValue := 100000, size := 10 }

/-- The state after `bumpfee p0 2 st0 1 (some 2000)`. -/
def st1 : WalletState :=
  { txs := [fundingTx, origTx, bumpTx1], pool := [2], confirmedTxs := [100],
    links := [(1, 2)], paytxfee := 0 }

/-- The post-reorg state of the confirmation/invalidation scenario: bump,
confirm the original in a block, then invalidate that block. -/
def stReorg : WalletState :=
  applyOp (applyOp st1 (.confirm 1)) (.invalidate 1)

/-- The state after the original reconfirms post-reorg. -/
def stReconf : WalletState :=
  applyOp stReorg (.confirm 1)

/-- A transaction with a foreign (non-wallet) input, as in
test_notmine_bumpfee_fails. -/
def foreignTx : Tx :=
  { txid := 4, inputs := [⟨100, 0, 0xfffffffd, true⟩, ⟨200, 0, 0xfffffffd, false⟩],
    outputs := [⟨150000, false⟩], inputValue := 200000, size := 20 }

def stForeign : WalletState :=
  { txs := [fundingTx, foreignTx], pool := [4], confirmedTxs := [100], links := [], paytxfee := 0 }

/-- A send-to-self parent and a child spending its first output, as in
test_bumpfee_with_descendant_fails. -/
def parentTx : Tx :=
  { txid := 5, inputs := [⟨100, 0, 0xfffffffd, true⟩],
    outputs := [⟨50000, true⟩, ⟨49000, true⟩], inputValue := 100000, size := 10 }

def childTx : Tx :=
  { txid := 6, inputs := [⟨5, 0, 0xfffffffd, true⟩],
    outputs := [⟨20000, false⟩, ⟨29000, true⟩], inputValue := 50000, size := 10 }

def stDescendant : WalletState :=
  { txs := [fundingTx, parentTx, childTx], pool := [5, 6], confirmedTxs := [100],
    links := [], paytxfee := 0 }

/-- A transaction whose only input carries a final sequence number (not
BIP125 opt-in), as in test_nonrbf_bumpfee_fails. -/
def nonRbfTx : Tx :=
  { txid := 7, inputs := [⟨100, 0, 0xffffffff, true⟩],
    outputs := [⟨90000, false⟩, ⟨9000, true⟩], inputValue := 100000, size := 10 }

def stNonRbf : WalletState :=
  { txs := [fundingTx, nonRbfTx], pool := [7], confirmedTxs := [100], links := [], paytxfee := 0 }

/-- The settxfee scenario state: the original was created under a fee-rate
override of 100 per size unit (fee 1000 at size 10) and the override has
since been raised to 250 (2.5 times 100). -/
def stOverride : WalletState :=
  { txs := [fundingTx, origTx], pool := [1], confirmedTxs := [100], links := [], paytxfee := 250 }

/-- The replacement produced by bumping `origTx` in `stOverride` with no
explicit fee (requested fee 250 * 10 = 2500). -/
def bumpTxOverride : Tx :=
  { txid := 2, inputs := [⟨100, 0, 0xfffffffd, true⟩],
    outputs := [⟨90000, false⟩, ⟨7500, true⟩], inputValue := 100000, size := 10 }

def stOverrideBumped : WalletState :=
  { txs := [fundingTx, origTx, bumpTxOverride], pool := [2], confirmedTxs := [100],
    links := [(1, 2)], paytxfee := 250 }

/-! Supporting lemmas. -/

theorem findChangeIdx_lt_length :
    ∀ {l : List TxOut} {i : Nat}, findChangeIdx l = some i → i < l.length := by
  intro l
  induction l with
  | nil => intro i h; simp [findChangeIdx] at h
  | cons o rest ih =>
    intro i h
    by_cases ho : o.toWallet
    · simp [findChangeIdx, ho] at h
      simp only [List.length_cons]
      omega
    · simp [findChangeIdx, ho] at h
      obtain ⟨j, hj, rfl⟩ := h
      have := ih hj
      simp
      omega

theorem length_eraseIdx_succ :
    ∀ (l : List α) (i : Nat), i < l.length → (l.eraseIdx i).length + 1 = l.length := by
  intro l
  induction l with
  | nil => intro i h; simp at h
  | cons a rest ih =>
    intro i h
    cases i with
    | zero => simp [List.eraseIdx]
    | succ j =>
      have hj : j < rest.length := by simpa using Nat.lt_of_succ_lt_succ (by simpa using h)
      have := ih j hj
      simp [List.eraseIdx]
      omega

theorem coinsOfAux_txid_eq :
    ∀ (os : List TxOut) (id i : Nat) (c : Coin), c ∈ coinsOfAux id i os → c.txid = id := by
  intro os
  induction os with
  | nil => intro id i c h; simp [coinsOfAux] at h
  | cons o rest ih =>
    intro id i c h
    simp only [coinsOfAux, List.mem_append] at h
    rcases h with h | h
    · by_cases ho : o.toWallet
      · simp [ho] at h; rw [h]
      · simp [ho] at h
    · exact ih id (i + 1) c h

theorem coinsOf_txid_eq (t : Tx) (c : Coin) (h : c ∈ coinsOf t) : c.txid = t.txid :=
  coinsOfAux_txid_eq t.outputs t.txid 0 c h

theorem mem_spendableFrom_elim (st : WalletState) (mc : Nat) :
    ∀ (l : List Tx) (c : Coin), c ∈ spendableFrom st mc l →
      ∃ t ∈ l, ((st.confirmedTxs.contains t.txid || (mc == 0 && st.pool.contains t.txid))
                  && !(excludedFromSpendable st t.txid)) = true
        ∧ c ∈ coinsOf t ∧ isSpent st c = false := by
  intro l
  induction l with
  | nil => intro c h; simp [spendableFrom] at h
  | cons t rest ih =>
    intro c h
    simp only [spendableFrom, List.mem_append] at h
    rcases h with h | h
    · by_cases hc : ((st.confirmedTxs.contains t.txid
          || (mc == 0 && st.pool.contains t.txid)) && !(excludedFromSpendable st t.txid)) = true
      · rw [if_pos hc] at h
        rw [List.mem_filter] at h
        refine ⟨t, List.mem_cons_self t rest, hc, h.1, ?_⟩
        simpa using h.2
      · rw [if_neg hc] at h
        simp at h
    · obtain ⟨t₀, ht₀, hcond, hmem, hsp⟩ := ih c h
      exact ⟨t₀, List.mem_cons_of_mem t ht₀, hcond, hmem, hsp⟩

theorem mem_spendableFrom_intro (st : WalletState) (mc : Nat) :
    ∀ (l : List Tx) (t : Tx) (c : Coin), t ∈ l →
      ((st.confirmedTxs.contains t.txid || (mc == 0 && st.pool.contains t.txid))
          && !(excludedFromSpendable st t.txid)) = true →
      c ∈ coinsOf t → isSpent st c = false → c ∈ spendableFrom st mc l := by
  intro l
  induction l with
  | nil => intro t c h; simp at h
  | cons t₀ rest ih =>
    intro t c ht hcond hmem hsp
    simp only [spendableFrom, List.mem_append]
    rcases List.mem_cons.mp ht with rfl | ht
    · left
      rw [if_pos hcond, List.mem_filter]
      exact ⟨hmem, by simp [hsp]⟩
    · right
      exact ih t c ht hcond hmem hsp

theorem bumpfee_ok_elim (p : Params) (newId : Nat) (st : WalletState) (id : Nat)
    (req : Option Nat) (st' : WalletState) (r : Tx) (fee : Nat)
    (h : bumpfee p newId st id req = .ok (st', r, fee)) :
    planBump p newId st id req = .ok (r, fee) ∧ st' = evictAndReplace st id r := by
  unfold bumpfee at h
  split at h
  · cases h
  · rename_i r0 fee0 heq
    simp only [Except.ok.injEq, Prod.mk.injEq] at h
    obtain ⟨h1, h2, h3⟩ := h
    subst h1; subst h2; subst h3
    exact ⟨heq, rfl⟩

theorem bumpfee_error_of_plan (p : Params) (newId : Nat) (st : WalletState) (id : Nat)
    (req : Option Nat) (e : BumpError)
    (h : planBump p newId st id req = .error e) :
    bumpfee p newId st id req = .error e ∧ applyOp st (.bump p newId id req) = st := by
  have hb : bumpfee p newId st id req = .error e := by
    unfold bumpfee; rw [h]
  exact ⟨hb, by simp [applyOp, hb]⟩

theorem planBump_ok_elim (p : Params) (newId : Nat) (st : WalletState) (id : Nat)
    (req : Option Nat) (out : Tx × Nat)
    (h : planBump p newId st id req = .ok out) :
    ∃ t, findTx st id = some t
      ∧ planBumpChange p newId t (req.getD (currentRate p st * t.size)) = .ok out := by
  unfold planBump at h
  split at h
  · cases h
  · rename_i t heq
    split at h
    · cases h
    · split at h
      · cases h
      · split at h
        · cases h
        · split at h
          · cases h
          · exact ⟨t, heq, h⟩

theorem planBump_eq_change (p : Params) (newId : Nat) (st : WalletState) (id : Nat)
    (req : Option Nat) (t : Tx)
    (hfind : findTx st id = some t)
    (hrep : isReplaceable p.finalityThreshold t = true)
    (hown : t.inputs.all (fun i => i.ownedByWallet) = true)
    (hdesc : descendantCount st id = 0)
    (hlink : hasOutgoingLink st id = false) :
    planBump p newId st id req
      = planBumpChange p newId t (req.getD (currentRate p st * t.size)) := by
  unfold planBump
  rw [hfind]
  simp [hrep, hown, hdesc, hlink]

theorem planBump_error_notReplaceable (p : Params) (newId : Nat) (st : WalletState)
    (id : Nat) (req : Option Nat) (t : Tx)
    (hfind : findTx st id = some t)
    (hrep : isReplaceable p.finalityThreshold t = false) :
    planBump p newId st id req = .error .NotReplaceable := by
  unfold planBump
  rw [hfind]
  simp [hrep]

theorem planBump_error_foreign (p : Params) (newId : Nat) (st : WalletState)
    (id : Nat) (req : Option Nat) (t : Tx)
    (hfind : findTx st id = some t)
    (hrep : isReplaceable p.finalityThreshold t = true)
    (hown : t.inputs.all (fun i => i.ownedByWallet) = false) :
    planBump p newId st id req = .error .ForeignInput := by
  unfold planBump
  rw [hfind]
  simp [hrep, hown]

theorem planBump_error_descendants (p : Params) (newId : Nat) (st : WalletState)
    (id : Nat) (req : Option Nat) (t : Tx)
    (hfind : findTx st id = some t)
    (hrep : isReplaceable p.finalityThreshold t = true)
    (hown : t.inputs.all (fun i => i.ownedByWallet) = true)
    (hdesc : descendantCount st id ≠ 0) :
    planBump p newId st id req = .error .HasDescendants := by
  unfold planBump
  rw [hfind]
  simp [hrep, hown, hdesc]

theorem planBump_error_alreadyBumped (p : Params) (newId : Nat) (st : WalletState)
    (id : Nat) (req : Option Nat) (t : Tx)
    (hfind : findTx st id = some t)
    (hrep : isReplaceable p.finalityThreshold t = true)
    (hown : t.inputs.all (fun i => i.ownedByWallet) = true)
    (hdesc : descendantCount st id = 0)
    (hlink : hasOutgoingLink st id = true) :
    planBump p newId st id req = .error .AlreadyBumped := by
  unfold planBump
  rw [hfind]
  simp [hrep, hown, hdesc, hlink]

theorem planBumpChange_ok_elim (p : Params) (newId : Nat) (t : Tx) (requested : Nat)
    (r : Tx) (fee : Nat)
    (h : planBumpChange p newId t requested = .ok (r, fee)) :
    r.txid = newId ∧ max requested (txFee t + p.relayIncrementFloor) ≤ fee := by
  unfold planBumpChange at h
  split at h
  · cases h
  · rename_i ci hci
    split at h
    · cases h
    · rename_i hfund
      split at h
      · simp only [Except.ok.injEq, Prod.mk.injEq] at h
        obtain ⟨h1, h2⟩ := h
        subst h1; subst h2
        exact ⟨rfl, by omega⟩
      · split at h
        · cases h
        · simp only [Except.ok.injEq, Prod.mk.injEq] at h
          obtain ⟨h1, h2⟩ := h
          subst h1; subst h2
          exact ⟨rfl, le_refl _⟩

theorem planBumpChange_dust_eq (p : Params) (newId : Nat) (t : Tx) (requested ci : Nat)
    (hci : findChangeIdx t.outputs = some ci)
    (hfund : max requested (txFee t + p.relayIncrementFloor) - txFee t
              ≤ (t.outputs.getD ci ⟨0, false⟩).amount)
    (hdust : (t.outputs.getD ci ⟨0, false⟩).amount
              - (max requested (txFee t + p.relayIncrementFloor) - txFee t) < p.dustThreshold) :
    planBumpChange p newId t requested
      = .ok ({ txid := newId, inputs := t.inputs, outputs := t.outputs.eraseIdx ci,
               inputValue := t.inputValue, size := t.size },
             txFee t + (t.outputs.getD ci ⟨0, false⟩).amount) := by
  unfold planBumpChange
  rw [hci]
  dsimp only
  rw [if_neg (by omega), if_pos hdust]

theorem planBumpChange_keep_eq (p : Params) (newId : Nat) (t : Tx) (requested ci : Nat)
    (hci : findChangeIdx t.outputs = some ci)
    (hfund : max requested (txFee t + p.relayIncrementFloor) - txFee t
              ≤ (t.outputs.getD ci ⟨0, false⟩).amount)
    (hdustle : p.dustThreshold ≤ (t.outputs.getD ci ⟨0, false⟩).amount
              - (max requested (txFee t + p.relayIncrementFloor) - txFee t))
    (hbig : p.minNonDustChange ≤ (t.outputs.getD ci ⟨0, false⟩).amount
              - (max requested (txFee t + p.relayIncrementFloor) - txFee t)) :
    planBumpChange p newId t requested
      = .ok ({ txid := newId, inputs := t.inputs,
               outputs := t.outputs.set ci
                 ⟨(t.outputs.getD ci ⟨0, false⟩).amount
                   - (max requested (txFee t + p.relayIncrementFloor) - txFee t), true⟩,
               inputValue := t.inputValue, size := t.size },
             max requested (txFee t + p.relayIncrementFloor)) := by
  unfold planBumpChange
  rw [hci]
  dsimp only
  rw [if_neg (by omega), if_neg (by omega), if_neg (by omega)]

/-! Claim theorems. -/

/-- C8: invoking bump on a transaction none of whose inputs carries a
sequence number below the chain's finality threshold (no BIP125 opt-in
marker) fails with NotReplaceable, and no replacement is created (the state
is unchanged). -/
theorem bumpfee_nonreplaceable_fails (p : Params) (newId : Nat) (st : WalletState)
    (id : Nat) (req : Option Nat) (t : Tx)
    (hfind : findTx st id = some t)
    (hseq : ∀ i ∈ t.inputs, p.finalityThreshold ≤ i.sequence) :
    bumpfee p newId st id req = .error .NotReplaceable
      ∧ applyOp st (.bump p newId id req) = st := by
  have hrep : isReplaceable p.finalityThreshold t = false := by
    simp only [isReplaceable, List.any_eq_false, decide_eq_true_eq]
    intro i hi
    exact Nat.not_lt.mpr (hseq i hi)
  exact bumpfee_error_of_plan _ _ _ _ _ _
    (planBump_error_notReplaceable _ _ _ _ _ _ hfind hrep)

/-- C8 witness: the non-opt-in transaction of test_nonrbf_bumpfee_fails. -/
theorem bumpfee_nonreplaceable_fails_w :
    (findTx stNonRbf 7 = some nonRbfTx
      ∧ ∀ i ∈ nonRbfTx.inputs, p0.finalityThreshold ≤ i.sequence)
  ∧ (bumpfee p0 8 stNonRbf 7 none = .error .NotReplaceable
      ∧ applyOp stNonRbf (.bump p0 8 7 none) = stNonRbf) :=
  ⟨⟨by decide, by decide⟩,
   bumpfee_nonreplaceable_fails p0 8 stNonRbf 7 none nonRbfTx (by decide) (by decide)⟩

/-- C7: invoking bump on a transaction with an input not owned by the wallet
fails with ForeignInput, and invoking bump on a transaction with an
in-wallet descendant (descendantCount > 0) fails with HasDescendants; in
both cases the state is unchanged (no replacement created). -/
theorem bumpfee_foreign_and_descendant_fail (p : Params) (newId : Nat)
    (st : WalletState) (id : Nat) (req : Option Nat) (t : Tx) :
    (findTx st id = some t → isReplaceable p.finalityThreshold t = true →
      t.inputs.all (fun i => i.ownedByWallet) = false →
      bumpfee p newId st id req = .error .ForeignInput
        ∧ applyOp st (.bump p newId id req) = st)
  ∧ (findTx st id = some t → isReplaceable p.finalityThreshold t = true →
      t.inputs.all (fun i => i.ownedByWallet) = true → descendantCount st id ≠ 0 →
      bumpfee p newId st id req = .error .HasDescendants
        ∧ applyOp st (.bump p newId id req) = st) := by
  constructor
  · intro hfind hrep hown
    exact bumpfee_error_of_plan _ _ _ _ _ _
      (planBump_error_foreign _ _ _ _ _ _ hfind hrep hown)
  · intro hfind hrep hown hdesc
    exact bumpfee_error_of_plan _ _ _ _ _ _
      (planBump_error_descendants _ _ _ _ _ _ hfind hrep hown hdesc)

/-- C7 witness: the foreign-input transaction of test_notmine_bumpfee_fails
and the parent-with-child of test_bumpfee_with_descendant_fails. -/
theorem bumpfee_foreign_and_descendant_fail_w :
    (bumpfee p0 8 stForeign 4 none = .error .ForeignInput
      ∧ applyOp stForeign (.bump p0 8 4 none) = stForeign)
  ∧ (bumpfee p0 8 stDescendant 5 none = .error .HasDescendants
      ∧ applyOp stDescendant (.bump p0 8 5 none) = stDescendant) :=
  ⟨(bumpfee_foreign_and_descendant_fail p0 8 stForeign 4 none foreignTx).1
      (by decide) (by decide) (by decide),
   (bumpfee_foreign_and_descendant_fail p0 8 stDescendant 5 none parentTx).2
      (by decide) (by decide) (by decide) (by decide)⟩

/-- C5: for a transaction that already has an outgoing Replacement Link (and
would otherwise be bumpable), bump fails with AlreadyBumped leaving the
state unchanged; while bumping a replacement transaction (one with an
incoming link and no outgoing link) whose change can fund the fee increase
succeeds, with a fee strictly above the replacement's own fee. -/
theorem bumpfee_rebump_original_fails (p : Params) (newId : Nat) (st : WalletState)
    (id : Nat) (req : Option Nat) (t : Tx)
    (hfloor : 0 < p.relayIncrementFloor)
    (hfind : findTx st id = some t)
    (hrep : isReplaceable p.finalityThreshold t = true)
    (hown : t.inputs.all (fun i => i.ownedByWallet) = true)
    (hdesc : descendantCount st id = 0)
    (hlink : hasOutgoingLink st id = true) :
    (bumpfee p newId st id req = .error .AlreadyBumped
      ∧ applyOp st (.bump p newId id req) = st)
  ∧ ∀ (newId2 rid req2 ci : Nat) (r : Tx),
      findTx st rid = some r → isReplacementTx st rid = true →
      isReplaceable p.finalityThreshold r = true →
      r.inputs.all (fun i => i.ownedByWallet) = true →
      descendantCount st rid = 0 → hasOutgoingLink st rid = false →
      findChangeIdx r.outputs = some ci →
      max req2 (txFee r + p.relayIncrementFloor) - txFee r
        ≤ (r.outputs.getD ci ⟨0, false⟩).amount →
      (p.dustThreshold ≤ (r.outputs.getD ci ⟨0, false⟩).amount
          - (max req2 (txFee r + p.relayIncrementFloor) - txFee r) →
        p.minNonDustChange ≤ (r.outputs.getD ci ⟨0, false⟩).amount
          - (max req2 (txFee r + p.relayIncrementFloor) - txFee r)) →
      ∃ st2 r2 fee2, bumpfee p newId2 st rid (some req2) = .ok (st2, r2, fee2)
        ∧ txFee r < fee2 := by
  constructor
  · exact bumpfee_error_of_plan _ _ _ _ _ _
      (planBump_error_alreadyBumped _ _ _ _ _ _ hfind hrep hown hdesc hlink)
  · intro newId2 rid req2 ci r hfind2 hincoming hrep2 hown2 hdesc2 hlink2 hci hfund hband
    have hplan := planBump_eq_change p newId2 st rid (some req2) r hfind2 hrep2 hown2 hdesc2 hlink2
    simp only [Option.getD_some] at hplan
    by_cases hd : (r.outputs.getD ci ⟨0, false⟩).amount
        - (max req2 (txFee r + p.relayIncrementFloor) - txFee r) < p.dustThreshold
    · have hch := planBumpChange_dust_eq p newId2 r req2 ci hci hfund hd
      refine ⟨evictAndReplace st rid
          { txid := newId2, inputs := r.inputs, outputs := r.outputs.eraseIdx ci,
            inputValue := r.inputValue, size := r.size },
        { txid := newId2, inputs := r.inputs, outputs := r.outputs.eraseIdx ci,
          inputValue := r.inputValue, size := r.size },
        txFee r + (r.outputs.getD ci ⟨0, false⟩).amount, ?_, ?_⟩
      · unfold bumpfee
        rw [hplan, hch]
      · omega
    · have hge : p.dustThreshold ≤ (r.outputs.getD ci ⟨0, false⟩).amount
          - (max req2 (txFee r + p.relayIncrementFloor) - txFee r) := Nat.not_lt.mp hd
      have hch := planBumpChange_keep_eq p newId2 r req2 ci hci hfund hge (hband hge)
      refine ⟨evictAndReplace st rid
          { txid := newId2, inputs := r.inputs,
            outputs := r.outputs.set ci
              ⟨(r.outputs.getD ci ⟨0, false⟩).amount
                - (max req2 (txFee r + p.relayIncrementFloor) - txFee r), true⟩,
            inputValue := r.inputValue, size := r.size },
        { txid := newId2, inputs := r.inputs,
          outputs := r.outputs.set ci
            ⟨(r.outputs.getD ci ⟨0, false⟩).amount
              - (max req2 (txFee r + p.relayIncrementFloor) - txFee r), true⟩,
          inputValue := r.inputValue, size := r.size },
        max req2 (txFee r + p.relayIncrementFloor), ?_, ?_⟩
      · unfold bumpfee
        rw [hplan, hch]
      · omega

/-- C5 witness: after the first bump (state st1), rebumping the original
fails with AlreadyBumped and bumping the replacement with total fee 3500
succeeds. -/
theorem bumpfee_rebump_original_fails_w :
    (bumpfee p0 3 st1 1 (some 3000) = .error .AlreadyBumped
      ∧ applyOp st1 (.bump p0 3 1 (some 3000)) = st1)
  ∧ (∃ st2 r2 fee2, bumpfee p0 3 st1 2 (some 3500) = .ok (st2, r2, fee2)
      ∧ txFee bumpTx1 < fee2) :=
  ⟨(bumpfee_rebump_original_fails p0 3 st1 1 (some 3000) origTx (by decide) (by decide)
      (by decide) (by decide) (by decide) (by decide)).1,
   (bumpfee_rebump_original_fails p0 3 st1 1 (some 3000) origTx (by decide) (by decide)
      (by decide) (by decide) (by decide) (by decide)).2
      3 2 3500 1 bumpTx1 (by decide) (by decide) (by decide) (by decide) (by decide)
      (by decide) (by decide) (by decide) (by decide)⟩

/-- C2: every successful bump with an explicit requested fee realizes a fee
strictly greater than the original's fee and at least the computed new fee
max(requestedFee, originalFee + relayIncrementFloor); a request at or below
the original fee is overridden by the floor. -/
theorem bumpfee_strictly_increases_fee (p : Params) (newId : Nat) (st : WalletState)
    (id req : Nat) (st' : WalletState) (r : Tx) (fee : Nat) (t : Tx)
    (hfloor : 0 < p.relayIncrementFloor)
    (hfind : findTx st id = some t)
    (h : bumpfee p newId st id (some req) = .ok (st', r, fee)) :
    txFee t < fee ∧ max req (txFee t + p.relayIncrementFloor) ≤ fee := by
  obtain ⟨hplan, -⟩ := bumpfee_ok_elim _ _ _ _ _ _ _ _ h
  obtain ⟨t0, hf0, hch⟩ := planBump_ok_elim _ _ _ _ _ _ hplan
  rw [hfind] at hf0
  obtain rfl : t = t0 := Option.some.inj hf0
  simp only [Option.getD_some] at hch
  obtain ⟨-, hle⟩ := planBumpChange_ok_elim _ _ _ _ _ _ hch
  omega

/-- C2 witness: bumping the original (fee 1000) with requested total fee
2000 realizes exactly 2000. -/
theorem bumpfee_strictly_increases_fee_w :
    (0 < p0.relayIncrementFloor
      ∧ bumpfee p0 2 st0 1 (some 2000) = .ok (st1, bumpTx1, 2000))
  ∧ (txFee origTx < 2000 ∧ max 2000 (txFee origTx + p0.relayIncrementFloor) ≤ 2000) :=
  ⟨⟨by decide, by decide⟩,
   bumpfee_strictly_increases_fee p0 2 st0 1 2000 st1 bumpTx1 2000 origTx
     (by decide) (by decide) (by decide)⟩

/-- C3: when the requested fee reduces the change below the dust threshold,
the bump succeeds, the replacement has exactly one fewer output, and the
realized fee is the original fee plus the dropped change output's amount,
which is at least the requested fee. -/
theorem bumpfee_dust_to_fee (p : Params) (newId : Nat) (st : WalletState)
    (id req ci : Nat) (t : Tx)
    (hfind : findTx st id = some t)
    (hrep : isReplaceable p.finalityThreshold t = true)
    (hown : t.inputs.all (fun i => i.ownedByWallet) = true)
    (hdesc : descendantCount st id = 0)
    (hlink : hasOutgoingLink st id = false)
    (hci : findChangeIdx t.outputs = some ci)
    (hfund : max req (txFee t + p.relayIncrementFloor) - txFee t
              ≤ (t.outputs.getD ci ⟨0, false⟩).amount)
    (hdust : (t.outputs.getD ci ⟨0, false⟩).amount
              - (max req (txFee t + p.relayIncrementFloor) - txFee t) < p.dustThreshold) :
    ∃ st' r, bumpfee p newId st id (some req)
        = .ok (st', r, txFee t + (t.outputs.getD ci ⟨0, false⟩).amount)
      ∧ r.outputs.length + 1 = t.outputs.length
      ∧ req ≤ txFee t + (t.outputs.getD ci ⟨0, false⟩).amount := by
  have hplan := planBump_eq_change p newId st id (some req) t hfind hrep hown hdesc hlink
  simp only [Option.getD_some] at hplan
  have hch := planBumpChange_dust_eq p newId t req ci hci hfund hdust
  refine ⟨evictAndReplace st id
      { txid := newId, inputs := t.inputs, outputs := t.outputs.eraseIdx ci,
        inputValue := t.inputValue, size := t.size },
    { txid := newId, inputs := t.inputs, outputs := t.outputs.eraseIdx ci,
      inputValue := t.inputValue, size := t.size }, ?_, ?_, ?_⟩
  · unfold bumpfee
    rw [hplan, hch]
  · exact length_eraseIdx_succ _ _ (findChangeIdx_lt_length hci)
  · omega

/-- C3 witness: the test_dust_to_fee numbers — original fee 1000 and change
9000; requested total fee 9900 leaves change 100, below dust 546, so the
realized fee is 10000 and the output count drops from 2 to 1. -/
theorem bumpfee_dust_to_fee_w :
    (findChangeIdx origTx.outputs = some 1
      ∧ max 9900 (txFee origTx + p0.relayIncrementFloor) - txFee origTx
          ≤ (origTx.outputs.getD 1 ⟨0, false⟩).amount
      ∧ (origTx.outputs.getD 1 ⟨0, false⟩).amount
          - (max 9900 (txFee origTx + p0.relayIncrementFloor) - txFee origTx)
          < p0.dustThreshold)
  ∧ (∃ st' r, bumpfee p0 2 st0 1 (some 9900)
        = .ok (st', r, txFee origTx + (origTx.outputs.getD 1 ⟨0, false⟩).amount)
      ∧ r.outputs.length + 1 = origTx.outputs.length
      ∧ 9900 ≤ txFee origTx + (origTx.outputs.getD 1 ⟨0, false⟩).amount) :=
  ⟨⟨by decide, by decide, by decide⟩,
   bumpfee_dust_to_fee p0 2 st0 1 9900 1 origTx (by decide) (by decide) (by decide)
     (by decide) (by decide) (by decide) (by decide) (by decide)⟩

/-- C4: after a successful bump the original transaction is absent from the
pending pool and the replacement is present; the eviction and insertion are
one atomic transition of the state machine (`evictAndReplace` inside
`bumpfee`), so no state with only one of the two effects exists between the
pre-state and the post-state. -/
theorem bumpfee_evicts_and_inserts (p : Params) (newId : Nat) (st : WalletState)
    (id : Nat) (req : Option Nat) (st' : WalletState) (r : Tx) (fee : Nat)
    (hne : newId ≠ id)
    (h : bumpfee p newId st id req = .ok (st', r, fee)) :
    id ∉ st'.pool ∧ r.txid ∈ st'.pool ∧ st' = evictAndReplace st id r := by
  obtain ⟨hplan, hst⟩ := bumpfee_ok_elim _ _ _ _ _ _ _ _ h
  obtain ⟨t, hf, hch⟩ := planBump_ok_elim _ _ _ _ _ _ hplan
  have hr : r.txid = newId := (planBumpChange_ok_elim _ _ _ _ _ _ hch).1
  subst hst
  refine ⟨?_, ?_, rfl⟩
  · intro hmem
    simp only [evictAndReplace, List.mem_append] at hmem
    rcases hmem with hm | hm
    · have := (List.mem_filter.mp hm).2
      simp at this
    · simp only [List.mem_singleton] at hm
      rw [hr] at hm
      exact hne hm.symm
  · simp [evictAndReplace]

/-- C4 witness: bumping the original with total fee 2000 removes txid 1 from
the pool and inserts txid 2. -/
theorem bumpfee_evicts_and_inserts_w :
    ((2 : Nat) ≠ 1 ∧ bumpfee p0 2 st0 1 (some 2000) = .ok (st1, bumpTx1, 2000))
  ∧ (1 ∉ st1.pool ∧ bumpTx1.txid ∈ st1.pool ∧ st1 = evictAndReplace st0 1 bumpTx1) :=
  ⟨⟨by decide, by decide⟩,
   bumpfee_evicts_and_inserts p0 2 st0 1 (some 2000) st1 bumpTx1 2000
     (by decide) (by decide)⟩

/-- C10: the fee computation honors the wallet's current fee-rate override
(a zero override meaning unset, falling back to the dynamic estimate): for
an original created under override `rate` (its fee is rate * size), bumping
with no explicit fee after the override was raised to at least 2.5 * rate
realizes a fee strictly more than twice the original fee. -/
theorem bumpfee_honors_feerate_override (p : Params) (newId : Nat) (st : WalletState)
    (id : Nat) (st' : WalletState) (rt : Tx) (fee : Nat) (t : Tx) (rate : Nat)
    (hfind : findTx st id = some t)
    (hfee : txFee t = rate * t.size)
    (hpos : 0 < rate * t.size)
    (hesc : 5 * rate ≤ 2 * st.paytxfee)
    (h : bumpfee p newId st id none = .ok (st', rt, fee)) :
    2 * txFee t < fee
      ∧ (∀ st2 : WalletState, st2.paytxfee = 0 → currentRate p st2 = p.dynamicRate)
      ∧ (∀ st2 : WalletState, st2.paytxfee ≠ 0 → currentRate p st2 = st2.paytxfee) := by
  have hz : st.paytxfee ≠ 0 := by
    intro h0
    rw [h0] at hesc
    have hr0 : rate = 0 := by omega
    rw [hr0] at hpos
    simp at hpos
  have hcr : currentRate p st = st.paytxfee := by
    unfold currentRate
    rw [if_neg (by simp [hz])]
  refine ⟨?_, ?_, ?_⟩
  · obtain ⟨hplan, -⟩ := bumpfee_ok_elim _ _ _ _ _ _ _ _ h
    obtain ⟨t0, hf0, hch⟩ := planBump_ok_elim _ _ _ _ _ _ hplan
    rw [hfind] at hf0
    obtain rfl : t = t0 := Option.some.inj hf0
    obtain ⟨-, hle⟩ := planBumpChange_ok_elim _ _ _ _ _ _ hch
    simp only [Option.getD_none] at hle
    rw [hcr] at hle
    have h1 : st.paytxfee * t.size ≤ fee := le_trans (le_max_left _ _) hle
    have h2 : 5 * (rate * t.size) ≤ 2 * (st.paytxfee * t.size) := by
      calc 5 * (rate * t.size) = 5 * rate * t.size := by ring
        _ ≤ 2 * st.paytxfee * t.size := mul_le_mul_right' hesc t.size
        _ = 2 * (st.paytxfee * t.size) := by ring
    rw [hfee]
    set a := rate * t.size with ha
    set b := st.paytxfee * t.size with hb
    omega
  · intro st2 h0
    simp [currentRate, h0]
  · intro st2 h0
    unfold currentRate
    rw [if_neg (by simp [h0])]

/-- C10 witness: the settxfee scenario — the original was created at rate
100 (fee 1000 at size 10), the override is now 250, and the bump with no
explicit fee realizes 2500 > 2 * 1000. -/
theorem bumpfee_honors_feerate_override_w :
    (findTx stOverride 1 = some origTx ∧ txFee origTx = 100 * origTx.size
      ∧ 0 < 100 * origTx.size ∧ 5 * 100 ≤ 2 * stOverride.paytxfee
      ∧ bumpfee p0 2 stOverride 1 none = .ok (stOverrideBumped, bumpTxOverride, 2500))
  ∧ (2 * txFee origTx < 2500
      ∧ (∀ st2 : WalletState, st2.paytxfee = 0 → currentRate p0 st2 = p0.dynamicRate)
      ∧ (∀ st2 : WalletState, st2.paytxfee ≠ 0 → currentRate p0 st2 = st2.paytxfee)) :=
  ⟨⟨by decide, by decide, by decide, by decide, by decide⟩,
   bumpfee_honors_feerate_override p0 2 stOverride 1 stOverrideBumped bumpTxOverride 2500
     origTx 100 (by decide) (by decide) (by decide) (by decide) (by decide)⟩

/-- C1: `listSpendable 0` excludes every coin of a transaction that has an
outgoing Replacement Link and is not confirmed (superseded original), and
every coin of a transaction with an incoming link that is not confirmed
(unconfirmed replacement); and every unspent wallet coin of a confirmed
transaction — such as the original once it reconfirms after a reorg — is
listed as spendable. -/
theorem listSpendable_replacement_exclusion (st : WalletState) (id : Nat) :
    (hasOutgoingLink st id = true → st.confirmedTxs.contains id = false →
      ∀ c ∈ listSpendable 0 st, c.txid ≠ id)
  ∧ (isReplacementTx st id = true → st.confirmedTxs.contains id = false →
      ∀ c ∈ listSpendable 0 st, c.txid ≠ id)
  ∧ (∀ t ∈ st.txs, t.txid = id → st.confirmedTxs.contains id = true →
      ∀ c ∈ coinsOf t, isSpent st c = false → c ∈ listSpendable 0 st) := by
  refine ⟨?_, ?_, ?_⟩
  · intro hout hconf c hc hcid
    obtain ⟨t, ht, hcond, hmem, hsp⟩ := mem_spendableFrom_elim st 0 st.txs c hc
    have hct : c.txid = t.txid := coinsOf_txid_eq t c hmem
    have hteq : t.txid = id := by rw [← hct, hcid]
    rw [hteq] at hcond
    have hex : excludedFromSpendable st id = true := by
      unfold excludedFromSpendable
      rw [hout, hconf]
      rfl
    rw [hex] at hcond
    simp at hcond
  · intro hin hconf c hc hcid
    obtain ⟨t, ht, hcond, hmem, hsp⟩ := mem_spendableFrom_elim st 0 st.txs c hc
    have hct : c.txid = t.txid := coinsOf_txid_eq t c hmem
    have hteq : t.txid = id := by rw [← hct, hcid]
    rw [hteq] at hcond
    have hex : excludedFromSpendable st id = true := by
      unfold excludedFromSpendable
      rw [hin, hconf]
      simp
    rw [hex] at hcond
    simp at hcond
  · intro t ht htid hconf c hcmem hsp
    apply mem_spendableFrom_intro st 0 st.txs t c ht ?_ hcmem hsp
    rw [htid]
    have hmem2 : id ∈ st.confirmedTxs := by simpa using hconf
    simp [hconf, excludedFromSpendable]
    exact ⟨Or.inl hmem2, Or.inr hmem2⟩

/-- C1 witness: right after the bump (st1) neither the superseded original's
coin nor the unconfirmed replacement's coin is spendable; after the original
reconfirms (stReconf) its wallet-addressed change coin is listed. -/
theorem listSpendable_replacement_exclusion_w :
    (hasOutgoingLink st1 1 = true ∧ st1.confirmedTxs.contains 1 = false
      ∧ ∀ c ∈ listSpendable 0 st1, c.txid ≠ 1)
  ∧ (isReplacementTx st1 2 = true ∧ st1.confirmedTxs.contains 2 = false
      ∧ ∀ c ∈ listSpendable 0 st1, c.txid ≠ 2)
  ∧ (origTx ∈ stReconf.txs ∧ origTx.txid = 1 ∧ stReconf.confirmedTxs.contains 1 = true
      ∧ (⟨1, 1, 9000⟩ : Coin) ∈ coinsOf origTx ∧ isSpent stReconf ⟨1, 1, 9000⟩ = false
      ∧ (⟨1, 1, 9000⟩ : Coin) ∈ listSpendable 0 stReconf) :=
  ⟨⟨by decide, by decide,
    (listSpendable_replacement_exclusion st1 1).1 (by decide) (by decide)⟩,
   ⟨by decide, by decide,
    (listSpendable_replacement_exclusion st1 2).2.1 (by decide) (by decide)⟩,
   ⟨by decide, by decide, by decide, by decide, by decide,
    (listSpendable_replacement_exclusion stReconf 1).2.2 origTx (by decide) (by decide)
      (by decide) ⟨1, 1, 9000⟩ (by decide) (by decide)⟩⟩

/-- C9: a Replacement Link, once created, is never removed by any engine
operation (bump, block confirmation, block invalidation); and the post-reorg
state with the original back in the pool, the replacement absent from it,
and the link still recorded is reachable from the initial scenario state by
bump, confirm, invalidate. -/
theorem replacement_link_permanent :
    (∀ (st : WalletState) (op : Op) (l : Nat × Nat),
        l ∈ st.links → l ∈ (applyOp st op).links)
  ∧ (stReorg = applyOp (applyOp (applyOp st0 (.bump p0 2 1 (some 2000))) (.confirm 1))
        (.invalidate 1)
      ∧ 1 ∈ stReorg.pool ∧ 2 ∉ stReorg.pool ∧ (1, 2) ∈ stReorg.links) := by
  constructor
  · intro st op l hl
    cases op with
    | bump p newId id req =>
      simp only [applyOp]
      cases hb : bumpfee p newId st id req with
      | error e => exact hl
      | ok out =>
        obtain ⟨st2, r, fee⟩ := out
        obtain ⟨-, hst⟩ := bumpfee_ok_elim _ _ _ _ _ _ _ _ hb
        subst hst
        simp only [evictAndReplace, List.mem_append]
        exact Or.inl hl
    | confirm id => simpa [applyOp, confirmTx] using hl
    | invalidate id =>
      simp only [applyOp]
      unfold invalidateTx
      split
      · exact hl
      · exact hl
  · exact ⟨by decide, by decide, by decide, by decide⟩

/-- C9 witness: the link (1, 2) survives a block confirmation applied to
the post-bump state. -/
theorem replacement_link_permanent_w :
    (1, 2) ∈ st1.links ∧ (1, 2) ∈ (applyOp st1 (.confirm 1)).links :=
  ⟨by decide, replacement_link_permanent.1 st1 (.confirm 1) (1, 2) (by decide)⟩

/-- C6 counterexample: with the dust-scenario original (fee 1000, change
9000) the dust-conversion threshold for the total fee is
txFee origTx + 9000 = 10000; requesting exactly 10000 succeeds via dust
conversion and requesting 10001 fails with ChangeTooSmall — but at 10001
the remaining change is not a positive amount below the minimum non-dust
size: the change (9000) is strictly smaller than the fee delta (9001), so
the remainder would be negative. -/
theorem small_output_claim_cex :
    bumpSucceeded (bumpfee p0 2 st0 1 (some (txFee origTx + 9000))) = true
  ∧ bumpfee p0 2 st0 1 (some (txFee origTx + 9000 + 1)) = .error .ChangeTooSmall
  ∧ (origTx.outputs.getD 1 ⟨0, false⟩).amount
      < max (txFee origTx + 9000 + 1) (txFee origTx + p0.relayIncrementFloor) - txFee origTx := by
  decide

/-- C6 (amended): requesting a total fee exactly one unit above the
dust-conversion threshold (original fee plus change amount) fails with
ChangeTooSmall and creates no replacement — there the change cannot fund
the fee increase (the remainder would be negative, not positive); exactly
at the threshold the bump succeeds via dust conversion with one fewer
output; and a remainder that is positive (at least the dust threshold) but
below the minimum non-dust output size is likewise rejected with
ChangeTooSmall, so conversion to fee happens only when the change would be
dust, never for merely small change. -/
theorem bumpfee_change_too_small_band (p : Params) (newId : Nat) (st : WalletState)
    (id ci : Nat) (t : Tx)
    (hfind : findTx st id = some t)
    (hrep : isReplaceable p.finalityThreshold t = true)
    (hown : t.inputs.all (fun i => i.ownedByWallet) = true)
    (hdesc : descendantCount st id = 0)
    (hlink : hasOutgoingLink st id = false)
    (hci : findChangeIdx t.outputs = some ci)
    (hfl : p.relayIncrementFloor ≤ (t.outputs.getD ci ⟨0, false⟩).amount)
    (hdustpos : 0 < p.dustThreshold) :
    (bumpfee p newId st id (some (txFee t + (t.outputs.getD ci ⟨0, false⟩).amount + 1))
        = .error .ChangeTooSmall
      ∧ applyOp st (.bump p newId id
          (some (txFee t + (t.outputs.getD ci ⟨0, false⟩).amount + 1))) = st)
  ∧ (∃ st' r, bumpfee p newId st id (some (txFee t + (t.outputs.getD ci ⟨0, false⟩).amount))
        = .ok (st', r, txFee t + (t.outputs.getD ci ⟨0, false⟩).amount)
      ∧ r.outputs.length + 1 = t.outputs.length)
  ∧ (∀ req, p.dustThreshold ≤ (t.outputs.getD ci ⟨0, false⟩).amount
          - (max req (txFee t + p.relayIncrementFloor) - txFee t) →
      (t.outputs.getD ci ⟨0, false⟩).amount
          - (max req (txFee t + p.relayIncrementFloor) - txFee t) < p.minNonDustChange →
      bumpfee p newId st id (some req) = .error .ChangeTooSmall
        ∧ applyOp st (.bump p newId id (some req)) = st) := by
  refine ⟨?_, ?_, ?_⟩
  · have hch : planBumpChange p newId t (txFee t + (t.outputs.getD ci ⟨0, false⟩).amount + 1)
        = .error .ChangeTooSmall := by
      unfold planBumpChange
      rw [hci]
      dsimp only
      rw [if_pos (by omega)]
    have hplan := planBump_eq_change p newId st id
        (some (txFee t + (t.outputs.getD ci ⟨0, false⟩).amount + 1)) t
        hfind hrep hown hdesc hlink
    simp only [Option.getD_some] at hplan
    exact bumpfee_error_of_plan _ _ _ _ _ _ (hplan.trans hch)
  · have hplan := planBump_eq_change p newId st id
        (some (txFee t + (t.outputs.getD ci ⟨0, false⟩).amount)) t
        hfind hrep hown hdesc hlink
    simp only [Option.getD_some] at hplan
    have hch := planBumpChange_dust_eq p newId t
        (txFee t + (t.outputs.getD ci ⟨0, false⟩).amount) ci hci (by omega) (by omega)
    refine ⟨evictAndReplace st id
        { txid := newId, inputs := t.inputs, outputs := t.outputs.eraseIdx ci,
          inputValue := t.inputValue, size := t.size },
      { txid := newId, inputs := t.inputs, outputs := t.outputs.eraseIdx ci,
        inputValue := t.inputValue, size := t.size }, ?_, ?_⟩
    · unfold bumpfee
      rw [hplan, hch]
    · exact length_eraseIdx_succ _ _ (findChangeIdx_lt_length hci)
  · intro req hd1 hd2
    have hch : planBumpChange p newId t req = .error .ChangeTooSmall := by
      unfold planBumpChange
      rw [hci]
      dsimp only
      rw [if_neg (by omega), if_neg (by omega), if_pos (by omega)]
    have hplan := planBump_eq_change p newId st id (some req) t hfind hrep hown hdesc hlink
    simp only [Option.getD_some] at hplan
    exact bumpfee_error_of_plan _ _ _ _ _ _ (hplan.trans hch)

/-- C6 (amended) witness: at the dust-scenario original, total fee 10001
(one above the threshold 10000) fails with ChangeTooSmall, and total fee
9000 — which leaves a positive remainder 1000, at least dust 546 but below
the minimum non-dust size 1092 — also fails with ChangeTooSmall. -/
theorem bumpfee_change_too_small_band_w :
    (bumpfee p0 2 st0 1 (some (txFee origTx + (origTx.outputs.getD 1 ⟨0, false⟩).amount + 1))
        = .error .ChangeTooSmall
      ∧ applyOp st0 (.bump p0 2 1
          (some (txFee origTx + (origTx.outputs.getD 1 ⟨0, false⟩).amount + 1))) = st0)
  ∧ (bumpfee p0 2 st0 1 (some 9000) = .error .ChangeTooSmall
      ∧ applyOp st0 (.bump p0 2 1 (some 9000)) = st0) :=
  ⟨(bumpfee_change_too_small_band p0 2 st0 1 1 origTx (by decide) (by decide) (by decide)
      (by decide) (by decide) (by decide) (by decide) (by decide)).1,
   (bumpfee_change_too_small_band p0 2 st0 1 1 origTx (by decide) (by decide) (by decide)
      (by decide) (by decide) (by decide) (by decide) (by decide)).2.2 9000
      (by decide) (by decide)⟩

end RBF
